import Mathlib

/-!
Verification development for the foxo_knowledge_assistant repository.

The Python sources are shallowly embedded as executable Lean definitions:
pure functions become Lean functions, the file system and external services
are passed in explicitly, and fallible operations return `Option`.
-/

namespace Foxo

/-! ## String helpers (explicit, data-level models of Python string operations) -/

/-- Boolean test that `p` is a prefix of `l` (model of Python `str.startswith`
restricted to char lists). -/
def isPrefixList (p l : List Char) : Bool :=
  match p, l with
  | [], _ => true
  | _ :: _, [] => false
  | a :: p', b :: l' => a == b && isPrefixList p' l'

/-- Boolean test that `pat` occurs as a contiguous sublist of `l`
(model of Python's `pat in s` substring test). -/
def hasSubList (pat : List Char) : List Char → Bool
  | [] => isPrefixList pat []
  | b :: t => isPrefixList pat (b :: t) || hasSubList pat t

/-- Python `pat in s` on strings. -/
def containsStr (s pat : String) : Bool :=
  hasSubList pat.data s.data

/-- Python `s.lower()` (ASCII-adequate: the repository only compares against
ASCII keywords). -/
def lowerStr (s : String) : String :=
  ⟨s.data.map Char.toLower⟩

/-- Python `s.rstrip()`: drop trailing whitespace. -/
def rstripStr (s : String) : String :=
  ⟨(s.data.reverse.dropWhile Char.isWhitespace).reverse⟩

/-- Python `s.strip()`: drop leading and trailing whitespace. -/
def stripStr (s : String) : String :=
  ⟨((s.data.dropWhile Char.isWhitespace).reverse.dropWhile Char.isWhitespace).reverse⟩

/-- Python `s.endswith(pat)`. -/
def endsWithStr (s pat : String) : Bool :=
  isPrefixList pat.data.reverse s.data.reverse

/-- Python `s[:n]`: the first `n` characters of `s`. -/
def takeStr (s : String) (n : Nat) : String :=
  ⟨s.data.take n⟩

/-! ## Calculator tool — `simple_calculator` from `src/autogen_tools.py`

`eval(expression)` is the Python runtime; it is modelled here by an
arithmetic evaluator (tokenizer + recursive-descent parser) covering the
expressions reachable through the character whitelist: decimal int/float
literals, `+ - * /`, unary sign, parentheses and spaces.  Exceptions raised
by `eval` (syntax errors, division by zero, type errors such as calling an
int) are modelled uniformly as `none`, which is what the enclosing
`try/except` observes.  Simplifications, none of which the claims touch:
`**` and `//` are treated as parse failures, the empty tuple `()` is a
parse failure, and float values are exact rationals. -/

/-- A Python number produced by arithmetic: `int` or `float`. -/
inductive PyNum where
  | pint : Int → PyNum
  | pfloat : Rat → PyNum
deriving DecidableEq

/-- Numeric value of a `PyNum` as a rational. -/
def PyNum.toRat : PyNum → Rat
  | .pint i => (i : Rat)
  | .pfloat q => q

/-- Python `+` with int/float promotion. -/
def pyAdd (a b : PyNum) : PyNum :=
  match a, b with
  | .pint x, .pint y => .pint (x + y)
  | _, _ => .pfloat (a.toRat + b.toRat)

/-- Python binary `-` with int/float promotion. -/
def pySub (a b : PyNum) : PyNum :=
  match a, b with
  | .pint x, .pint y => .pint (x - y)
  | _, _ => .pfloat (a.toRat - b.toRat)

/-- Python `*` with int/float promotion. -/
def pyMul (a b : PyNum) : PyNum :=
  match a, b with
  | .pint x, .pint y => .pint (x * y)
  | _, _ => .pfloat (a.toRat * b.toRat)

/-- Python true division `/`: always a float; division by zero raises
(`none`). -/
def pyDiv (a b : PyNum) : Option PyNum :=
  if b.toRat = 0 then none else some (.pfloat (a.toRat / b.toRat))

/-- Python unary `-`. -/
def pyNeg : PyNum → PyNum
  | .pint i => .pint (-i)
  | .pfloat q => .pfloat (-q)

/-- Tokens of the arithmetic sublanguage. -/
inductive Tok where
  | num : PyNum → Tok
  | plus | minus | star | slash | lparen | rparen
deriving DecidableEq

/-- Decimal value of a digit run. -/
def digitsToNat (l : List Char) : Nat :=
  l.foldl (fun acc c => acc * 10 + (c.toNat - '0'.toNat)) 0

/-- Value of a maximal digit/dot run, following Python literal rules:
at most one dot, at least one digit, and an integer literal other than `0`
may not start with `0`. -/
def numLitVal (l : List Char) : Option PyNum :=
  let dots := (l.filter (fun c => c == '.')).length
  if dots == 0 then
    if 1 < l.length && isPrefixList ['0'] l then none
    else some (.pint (digitsToNat l))
  else if dots == 1 then
    let ip := l.takeWhile (fun c => !(c == '.'))
    let fp := (l.dropWhile (fun c => !(c == '.'))).drop 1
    if ip.length + fp.length == 0 then none
    else some (.pfloat ((digitsToNat ip : Rat) + (digitsToNat fp : Rat) / ((10 : Rat) ^ fp.length)))
  else none

/-- Tokenizer (fuel-based; the fuel is the length of the input, which always
suffices since every step consumes at least one character). -/
def tokenizeGo : Nat → List Char → Option (List Tok)
  | _, [] => some []
  | 0, _ :: _ => none
  | fuel + 1, c :: rest =>
    if c == ' ' then tokenizeGo fuel rest
    else if c == '+' then (tokenizeGo fuel rest).map (Tok.plus :: ·)
    else if c == '-' then (tokenizeGo fuel rest).map (Tok.minus :: ·)
    else if c == '*' then (tokenizeGo fuel rest).map (Tok.star :: ·)
    else if c == '/' then (tokenizeGo fuel rest).map (Tok.slash :: ·)
    else if c == '(' then (tokenizeGo fuel rest).map (Tok.lparen :: ·)
    else if c == ')' then (tokenizeGo fuel rest).map (Tok.rparen :: ·)
    else if c.isDigit || c == '.' then
      let run := (c :: rest).takeWhile (fun d => d.isDigit || d == '.')
      let rest' := (c :: rest).dropWhile (fun d => d.isDigit || d == '.')
      match numLitVal run with
      | none => none
      | some v => (tokenizeGo fuel rest').map (Tok.num v :: ·)
    else none

mutual

/-- `expr := term (('+'|'-') term)*`, evaluated as it is parsed. -/
def parseExpr : Nat → List Tok → Option (PyNum × List Tok)
  | 0, _ => none
  | fuel + 1, ts =>
    match parseTerm fuel ts with
    | none => none
    | some (v, rest) => parseExprRest fuel v rest

/-- Left-associated chain of `+`/`-` continuations. -/
def parseExprRest : Nat → PyNum → List Tok → Option (PyNum × List Tok)
  | 0, _, _ => none
  | fuel + 1, acc, Tok.plus :: ts =>
    match parseTerm fuel ts with
    | none => none
    | some (v, rest) => parseExprRest fuel (pyAdd acc v) rest
  | fuel + 1, acc, Tok.minus :: ts =>
    match parseTerm fuel ts with
    | none => none
    | some (v, rest) => parseExprRest fuel (pySub acc v) rest
  | _ + 1, acc, ts => some (acc, ts)

/-- `term := factor (('*'|'/') factor)*`. -/
def parseTerm : Nat → List Tok → Option (PyNum × List Tok)
  | 0, _ => none
  | fuel + 1, ts =>
    match parseFactor fuel ts with
    | none => none
    | some (v, rest) => parseTermRest fuel v rest

/-- Left-associated chain of `*`/`/` continuations; `/` can raise
(division by zero), propagated as `none`. -/
def parseTermRest : Nat → PyNum → List Tok → Option (PyNum × List Tok)
  | 0, _, _ => none
  | fuel + 1, acc, Tok.star :: ts =>
    match parseFactor fuel ts with
    | none => none
    | some (v, rest) => parseTermRest fuel (pyMul acc v) rest
  | fuel + 1, acc, Tok.slash :: ts =>
    match parseFactor fuel ts with
    | none => none
    | some (v, rest) =>
      match pyDiv acc v with
      | none => none
      | some w => parseTermRest fuel w rest
  | _ + 1, acc, ts => some (acc, ts)

/-- `factor := ('+'|'-') factor | NUM | '(' expr ')'`. -/
def parseFactor : Nat → List Tok → Option (PyNum × List Tok)
  | 0, _ => none
  | fuel + 1, Tok.minus :: ts => (parseFactor fuel ts).map (fun p => (pyNeg p.1, p.2))
  | fuel + 1, Tok.plus :: ts => parseFactor fuel ts
  | _ + 1, Tok.num v :: ts => some (v, ts)
  | fuel + 1, Tok.lparen :: ts =>
    match parseExpr fuel ts with
    | some (v, Tok.rparen :: r) => some (v, r)
    | _ => none
  | _ + 1, _ => none

end

/-- Model of Python `eval` on the arithmetic sublanguage: `none` is any
exception (syntax error, zero division, type error). -/
def pyEvalArith (s : String) : Option PyNum :=
  match tokenizeGo s.data.length s.data with
  | none => none
  | some ts =>
    match parseExpr (4 * (ts.length + 1)) ts with
    | some (v, []) => some v
    | _ => none

/-- Display form of a result, as interpolated by the f-string in the source
(`str` of an int is its decimal form; float display is simplified to
`<num>.0` for whole values, which no claim exercises). -/
def pyNumRepr : PyNum → String
  | .pint i => toString i
  | .pfloat q => if q.den == 1 then toString q.num ++ ".0" else toString q

/-- The character whitelist of `simple_calculator`. -/
def allowed_chars : List Char := "0123456789+-*/(). ".data

/-- The keyword blacklist of `simple_calculator`. -/
def disallowed_keywords : List String :=
  ["import", "os", "sys", "eval", "exec", "lambda", "def", "__"]

/-- `simple_calculator` from `src/autogen_tools.py`: whitelist check, keyword
check, then guarded evaluation.  The `try/except` around `eval` becomes the
`Option` match — every path returns a string. -/
def simple_calculator (expression : String) : String :=
  if !(expression.data.all (fun c => allowed_chars.contains c)) then
    "Error: Expression contains invalid characters for simple_calculator."
  else if disallowed_keywords.any (fun kw => containsStr (lowerStr expression) kw) then
    "Error: Expression contains disallowed keywords for safety."
  else
    match pyEvalArith expression with
    | some v =>
      let r := pyNumRepr v
      s!"The result of \x27{expression}\x27 is {r}."
    | none =>
      s!"Error: Could not evaluate the expression \x27{expression}\x27. Ensure it\x27s a valid simple arithmetic expression."

/-! ## Documents and metadata — `langchain_core.documents.Document`

Metadata is a Python dict with string keys; the values used by this
repository are strings and ints.  A dict is modelled as an ordered
association list with unique keys: lookup takes the first match, update
replaces in place, and a new key is appended (Python dict insertion
order). -/

/-- A metadata value: the repository stores strings and ints. -/
inductive MetaVal where
  | str : String → MetaVal
  | int : Int → MetaVal
deriving DecidableEq

/-- Python `d.get(k)` / `k in d`. -/
def metaGet (md : List (String × MetaVal)) (k : String) : Option MetaVal :=
  (md.find? (fun p => p.1 == k)).map (fun p => p.2)

/-- Python `d[k] = v`. -/
def metaSet (md : List (String × MetaVal)) (k : String) (v : MetaVal) :
    List (String × MetaVal) :=
  if (md.find? (fun p => p.1 == k)).isSome then
    md.map (fun p => if p.1 == k then (k, v) else p)
  else md ++ [(k, v)]

/-- A LangChain `Document`: page content plus metadata. -/
structure Document where
  page_content : String
  metadata : List (String × MetaVal)
deriving DecidableEq

/-! ## Chunker — `chunk_documents` from `src/document_processor.py`

The `RecursiveCharacterTextSplitter` is an external library; it enters the
model as a `splitter` parameter.  The spec (§4.2) requires of it only that
chunks inherit the metadata of some parent document, captured by
`SplitterInheritsMetadata`. -/

/-- The metadata-backfill loop of `chunk_documents`: a document without a
`source` key gets `source := metadata.get("file_path", "Unknown_Source_File")`. -/
def backfillSource (doc : Document) : Document :=
  match metaGet doc.metadata "source" with
  | some _ => doc
  | none =>
    let v :=
      match metaGet doc.metadata "file_path" with
      | some w => w
      | none => MetaVal.str "Unknown_Source_File"
    { doc with metadata := metaSet doc.metadata "source" v }

/-- `chunk_documents`: empty input short-circuits; otherwise backfill
metadata on every document and hand the list to the splitter. -/
def chunk_documents (splitter : List Document → List Document)
    (documents : List Document) : List Document :=
  if documents.isEmpty then []
  else splitter (documents.map backfillSource)

/-- Modelled from the spec: the splitter carries the parent document's
metadata over to every chunk (§4.2 "preserving provenance"). -/
def SplitterInheritsMetadata (splitter : List Document → List Document) : Prop :=
  ∀ docs : List Document, ∀ c ∈ splitter docs, ∃ d ∈ docs, c.metadata = d.metadata

/-! ## Context formatter — `format_docs_with_sources` from
`src/rag_chain_builder.py` -/

/-- How the f-string renders `metadata.get(k, "N/A")`. -/
def metaShow : Option MetaVal → String
  | some (.str s) => s
  | some (.int n) => toString n
  | none => "N/A"

/-- One loop iteration of `format_docs_with_sources`: the header for chunk
`i` (0-based) followed by the first 1500 characters of its content and the
separator. -/
def formatDocPart (i : Nat) (doc : Document) : String :=
  let src := metaShow (metaGet doc.metadata "source")
  let pg := metaShow (metaGet doc.metadata "page")
  let snippet := takeStr doc.page_content 1500
  let n := i + 1
  s!"Source {n} (File: {src}, Page: {pg}):\n{snippet}\n---\n"

/-- `format_docs_with_sources`: sentinel on empty input, else the parts
joined by a newline. -/
def format_docs_with_sources (docs : List Document) : String :=
  if docs.isEmpty then "No context documents found."
  else String.intercalate "\n" ((docs.enum).map (fun p => formatDocPart p.1 p.2))

/-! ## Loader — `load_supported_documents` from `src/document_processor.py`

The file system enters the model explicitly: `listing` is
`os.path.isdir` + `os.listdir` (`none` when the path is not a directory),
and each file carries oracles for the two ways the code reads it —
`pdfParse` is the page texts `fitz` extracts (`none` when opening or
reading the PDF raises) and `textRead` is the UTF-8 decoded content
(`none` when reading or decoding raises). -/

/-- A directory entry as the loader sees it. -/
structure FsFile where
  name : String
  pdfParse : Option (List String)
  textRead : Option String
deriving DecidableEq

/-- `os.path.splitext(s)[1]` for a bare filename: the suffix starting at
the last dot, where leading dots do not begin an extension. -/
def splitextExtChars (l : List Char) : List Char :=
  let lead := l.takeWhile (fun c => c == '.')
  let rest := l.drop lead.length
  if rest.contains '.' then
    '.' :: ((rest.reverse.takeWhile (fun c => !(c == '.'))).reverse)
  else []

/-- `os.path.splitext(nm.lower())[1]` as used by the loader. -/
def extLower (nm : String) : String :=
  ⟨splitextExtChars (lowerStr nm).data⟩

/-- Python `s.strip(".")`. -/
def stripDots (s : String) : String :=
  ⟨((s.data.dropWhile (fun c => c == '.')).reverse.dropWhile (fun c => c == '.')).reverse⟩

/-- The filename filter: `f.lower().endswith((".pdf", ".txt", ".md"))`. -/
def supportedName (nm : String) : Bool :=
  endsWithStr (lowerStr nm) ".pdf" || endsWithStr (lowerStr nm) ".txt" ||
    endsWithStr (lowerStr nm) ".md"

/-- The PDF page loop: one `Document` per page with non-whitespace text,
with the metadata dict built in source order. -/
def pdfPageDocs (folder_path nm : String) (pages : List String) : List Document :=
  (pages.enum).filterMap (fun p =>
    if stripStr p.2 = "" then none
    else some ⟨p.2,
      [("source", .str nm), ("page", .int (p.1 + 1)),
       ("file_path", .str (folder_path ++ "/" ++ nm)), ("type", .str "pdf")]⟩)

/-- The per-file body of the loader's loop: dispatch on the lowercased
extension; a parse/read failure contributes nothing (the `except` branch
logs and `continue`s). -/
def fileDocs (folder_path : String) (f : FsFile) : List Document :=
  let ext := extLower f.name
  if ext == ".pdf" then
    match f.pdfParse with
    | none => []
    | some pages => pdfPageDocs folder_path f.name pages
  else if ext == ".txt" || ext == ".md" then
    match f.textRead with
    | none => []
    | some content =>
      if stripStr content = "" then []
      else [⟨content,
        [("source", .str f.name), ("file_path", .str (folder_path ++ "/" ++ f.name)),
         ("type", .str (stripDots ext))]⟩]
  else []

/-- `load_supported_documents`: `[]` when the folder is not a directory;
otherwise the concatenated per-file results over the supported filenames. -/
def load_supported_documents (folder_path : String) (listing : Option (List FsFile)) :
    List Document :=
  match listing with
  | none => []
  | some files =>
    (files.filter (fun f => supportedName f.name)).flatMap (fileDocs folder_path)

/-- A supported file on which the loader's `try` body raises: a PDF whose
open/read fails, or a text/markdown file whose read/decode fails. -/
def parseFails (f : FsFile) : Bool :=
  let ext := extLower f.name
  if ext == ".pdf" then f.pdfParse.isNone
  else if ext == ".txt" || ext == ".md" then f.textRead.isNone
  else false

/-! ## Ingestion entry point — `main` from `ingest.py`

The external effects (the splitter library, the Gemini embedding client,
the Chroma write) enter as an environment; the loader and chunker are the
definitions above.  The executed-stage trace records which stages `main`
enters before returning. -/

/-- The four pipeline stages of `ingest.main`. -/
inductive Stage where
  | load | chunkStage | embed | store
deriving DecidableEq

/-- How `ingest.main` returns. -/
inductive IngestOutcome where
  | noData | noDocs | noChunks | embedFail | storeFail | success
deriving DecidableEq

/-- The environment `ingest.main` runs against. -/
structure IngestEnv where
  dataListing : Option (List FsFile)
  splitter : List Document → List Document
  embedInitOk : Bool
  storeOk : Bool

/-- `ingest.main`: the guard on the data folder, then
load → chunk → embedding init → vector-store write, each stage returning
early on failure.  The first component is the list of stages entered, in
execution order. -/
def ingestMain (env : IngestEnv) : List Stage × IngestOutcome :=
  match env.dataListing with
  | none => ([], .noData)
  | some fs =>
    if fs.isEmpty then ([], .noData)
    else
      let raw := load_supported_documents "data" (some fs)
      if raw.isEmpty then ([Stage.load], .noDocs)
      else
        let chunked := chunk_documents env.splitter raw
        if chunked.isEmpty then ([Stage.load, Stage.chunkStage], .noChunks)
        else if !env.embedInitOk then
          ([Stage.load, Stage.chunkStage, Stage.embed], .embedFail)
        else if !env.storeOk then
          ([Stage.load, Stage.chunkStage, Stage.embed, Stage.store], .storeFail)
        else ([Stage.load, Stage.chunkStage, Stage.embed, Stage.store], .success)

/-! ## Agent loop and chat handler — `src/autogen_manager.py` and `app.py`

A conversation message as stored in `user_proxy.chat_messages[assistant]`:
`content` is `some c` when the Python `content` is a string, `none` when it
is `None` or a non-string payload; `toolCall` is `some name` when the
message carries a `function_call`/`tool_calls` entry. -/

/-- One AutoGen conversation message. -/
structure Msg where
  role : String
  name : String
  content : Option String
  toolCall : Option String
deriving DecidableEq

/-- The `is_termination_msg` lambda of `get_autogen_agents`
(`src/autogen_manager.py`): content is a string whose right-stripped text
ends with `TERMINATE`. -/
def isTerminationMsgB (content : Option String) : Bool :=
  match content with
  | some c => endsWithStr (rstripStr c) "TERMINATE"
  | none => false

/-- A message record as `app.py` appends it to the display history. -/
structure DispMsg where
  role : String
  name : String
  content : Option String
  functionCall : Option String
deriving DecidableEq

/-- `app.py`: `if role_to_display == "model": role_to_display = "assistant"`. -/
def roleToDisplay (r : String) : String :=
  if r == "model" then "assistant" else r

/-- The display record `app.py` builds from one AutoGen message. -/
def toDisplay (m : Msg) : DispMsg :=
  ⟨roleToDisplay m.role, m.name, m.content, m.toolCall⟩

/-- The skip condition of the display loop: the echo of the user's prompt. -/
def skipMsg (prompt : String) (m : Msg) : Bool :=
  m.role == "user" && m.content == some prompt

/-- `is_final_answer_candidate` from the first loop of the chat handler:
assistant role (after the model→assistant mapping), truthy string content
with non-whitespace text, and no tool call. -/
def isFinalAnswerCandidate (m : Msg) : Bool :=
  roleToDisplay m.role == "assistant" &&
  (match m.content with
   | some c => !(c == "") && !(stripStr c == "")
   | none => false) &&
  m.toolCall == none

/-- The reversed-scan condition from the second loop of the chat handler:
role exactly `"assistant"`, truthy string content, no tool call. -/
def isFallbackScanHit (m : Msg) : Bool :=
  m.role == "assistant" &&
  (match m.content with
   | some c => !(c == "")
   | none => false) &&
  m.toolCall == none

/-- `isFallbackScanHit` transported to display records. -/
def dispFallbackScanHit (d : DispMsg) : Bool :=
  d.role == "assistant" &&
  (match d.content with
   | some c => !(c == "")
   | none => false) &&
  d.functionCall == none

/-- The fixed fallback record `app.py` appends when no assistant text was
found (the agent name is `KnowledgeExplorerAssistant`). -/
def fallbackDisp : DispMsg :=
  ⟨"assistant", "KnowledgeExplorerAssistant",
   some "(Assistant processed the request but provided no further textual response for this turn.)",
   none⟩

/-- The chat-input handler of `app.py` (lines 158–206), as a function from
the turn's conversation to the display records appended for it.  The
imperative code appends every non-skipped message unchanged while flagging
whether any final-answer candidate occurred, then — only if the flag is
still unset — scans the conversation most-recent-first for an assistant
text, and appends the fixed fallback record when both scans miss.  Skipped
messages have role `"user"` and are never candidates, and the reversed
scan only establishes existence, so the two scans are the two `any`s
below. -/
def chatHandler (prompt : String) (conv : List Msg) : List DispMsg :=
  let disp := (conv.filter (fun m => !skipMsg prompt m)).map toDisplay
  let flag := (conv.filter (fun m => !skipMsg prompt m)).any isFinalAnswerCandidate ||
    conv.any isFallbackScanHit
  if flag then disp else disp ++ [fallbackDisp]

/-- Modelled from the spec: the user proxy's auto-reply (§4.8) — a tool
call is executed and fed back as a `function`-role turn; otherwise the
proxy sends its (empty) default auto-reply. -/
def autoReply (toolExec : String → String) (m : Msg) : Msg :=
  match m.toolCall with
  | some toolName => ⟨"function", toolName, some (toolExec toolName), none⟩
  | none => ⟨"user", "UserProxy", some "", none⟩

/-- Modelled from the spec: the bounded agent loop of §4.8, run by the
autogen framework with the repository's configuration
(`is_termination_msg` above, `max_consecutive_auto_reply=5`).  Each model
reply is appended; a terminating reply stops the loop; otherwise the proxy
auto-replies while its budget lasts and the loop continues. -/
def agentLoopGo (toolExec : String → String) : List Msg → Nat → List Msg → List Msg
  | [], _, conv => conv
  | r :: rest, b, conv =>
    if isTerminationMsgB r.content then conv ++ [r]
    else
      match b with
      | 0 => conv ++ [r]
      | n + 1 => agentLoopGo toolExec rest n (conv ++ [r, autoReply toolExec r])

/-- Modelled from the spec: one `Ask` invocation — the user's message is
the first turn, then the loop runs against the model's replies with the
configured auto-reply budget. -/
def runAgentLoop (toolExec : String → String) (prompt : String) (replies : List Msg)
    (maxAuto : Nat) : List Msg :=
  agentLoopGo toolExec replies maxAuto [⟨"user", "UserProxy", some prompt, none⟩]

/-- The suffix the loop appends past the initial prompt turn. -/
def loopTrace (toolExec : String → String) : List Msg → Nat → List Msg
  | [], _ => []
  | r :: rest, b =>
    if isTerminationMsgB r.content then [r]
    else
      match b with
      | 0 => [r]
      | n + 1 => r :: autoReply toolExec r :: loopTrace toolExec rest n

/-! ## Lemmas about the string helpers -/

theorem mem_of_isPrefixList (p : List Char) :
    ∀ l : List Char, isPrefixList p l = true → ∀ c ∈ p, c ∈ l := by
  induction p with
  | nil => intro l _ c hc; cases hc
  | cons a p' ih =>
    intro l h c hc
    cases l with
    | nil => simp [isPrefixList] at h
    | cons b l' =>
      simp only [isPrefixList, Bool.and_eq_true, beq_iff_eq] at h
      cases hc with
      | head => rw [h.1]; exact List.mem_cons_self _ _
      | tail _ hc' => exact List.mem_cons_of_mem _ (ih l' h.2 c hc')

theorem mem_of_hasSubList (p : List Char) :
    ∀ l : List Char, hasSubList p l = true → ∀ c ∈ p, c ∈ l := by
  intro l
  induction l with
  | nil =>
    intro h c hc
    cases p with
    | nil => cases hc
    | cons a p' => simp [hasSubList, isPrefixList] at h
  | cons b t ih =>
    intro h c hc
    rcases Bool.or_eq_true_iff.mp h with h1 | h2
    · exact mem_of_isPrefixList p _ h1 c hc
    · exact List.mem_cons_of_mem _ (ih h2 c hc)

theorem toLower_of_allowed (c : Char) (h : c ∈ allowed_chars) : Char.toLower c = c := by
  fin_cases h <;> decide

/-- Branch lemma: a whitelist violation short-circuits `simple_calculator`. -/
theorem simple_calculator_of_char_fail {s : String}
    (h : s.data.all (fun c => allowed_chars.contains c) = false) :
    simple_calculator s =
      "Error: Expression contains invalid characters for simple_calculator." := by
  unfold simple_calculator
  have hcond : (!(s.data.all (fun c => allowed_chars.contains c))) = true := by
    rw [h]; rfl
  rw [if_pos hcond]

/-- Branch lemma: with the whitelist passed, a keyword hit short-circuits
`simple_calculator`. -/
theorem simple_calculator_of_kw {s : String}
    (hc : s.data.all (fun c => allowed_chars.contains c) = true)
    (hkw : (disallowed_keywords.any (fun kw => containsStr (lowerStr s) kw)) = true) :
    simple_calculator s = "Error: Expression contains disallowed keywords for safety." := by
  unfold simple_calculator
  have h1 : ¬((!(s.data.all (fun c => allowed_chars.contains c))) = true) := by
    rw [hc]; simp
  rw [if_neg h1, if_pos hkw]

/-- Branch lemma: with both guards passed, `simple_calculator` is the guarded
evaluation branch. -/
theorem simple_calculator_of_guards {s : String}
    (hc : s.data.all (fun c => allowed_chars.contains c) = true)
    (hkw : (disallowed_keywords.any (fun kw => containsStr (lowerStr s) kw)) = false) :
    simple_calculator s =
      match pyEvalArith s with
      | some v => s!"The result of \x27{s}\x27 is {pyNumRepr v}."
      | none =>
        s!"Error: Could not evaluate the expression \x27{s}\x27. Ensure it\x27s a valid simple arithmetic expression." := by
  unfold simple_calculator
  have h1 : ¬((!(s.data.all (fun c => allowed_chars.contains c))) = true) := by
    rw [hc]; simp
  have h2 : ¬((disallowed_keywords.any (fun kw => containsStr (lowerStr s) kw)) = true) := by
    rw [hkw]; simp
  rw [if_neg h1, if_neg h2]

/-- C9: every string that passes the character whitelist of
`simple_calculator` contains none of the disallowed keywords as a substring
of its lowercase form, so the keyword-rejection branch guard is false
(the branch is unreachable for whitelisted inputs). -/
theorem c9_whitelist_blocks_keywords (s : String)
    (hs : s.data.all (fun c => allowed_chars.contains c) = true) :
    (∀ kw ∈ disallowed_keywords, containsStr (lowerStr s) kw = false) ∧
    (disallowed_keywords.any (fun kw => containsStr (lowerStr s) kw)) = false := by
  have hall : ∀ c ∈ s.data, c ∈ allowed_chars := by
    intro c hc
    have := List.all_eq_true.mp hs c hc
    simpa using this
  have hmain : ∀ kw ∈ disallowed_keywords, containsStr (lowerStr s) kw = false := by
    intro kw hkw
    cases htrue : containsStr (lowerStr s) kw with
    | false => rfl
    | true =>
      exfalso
      have hsub := mem_of_hasSubList kw.data (lowerStr s).data htrue
      have hbad : kw.data.any (fun ch => !(allowed_chars.contains ch)) = true := by
        fin_cases hkw <;> decide
      obtain ⟨ch, hch, hchbad⟩ := List.any_eq_true.mp hbad
      have hchmem : ch ∈ (lowerStr s).data := hsub ch hch
      have hdata : (lowerStr s).data = s.data.map Char.toLower := rfl
      rw [hdata] at hchmem
      obtain ⟨c', hc', hmap⟩ := List.mem_map.mp hchmem
      have hc'allowed := hall c' hc'
      rw [toLower_of_allowed c' hc'allowed] at hmap
      subst hmap
      simp at hchbad
      exact hchbad hc'allowed
  refine ⟨hmain, ?_⟩
  cases hany : disallowed_keywords.any (fun kw => containsStr (lowerStr s) kw) with
  | false => rfl
  | true =>
    exfalso
    obtain ⟨kw, hkw, hc⟩ := List.any_eq_true.mp hany
    rw [hmain kw hkw] at hc
    cases hc

/-- Witness for C9 at the concrete whitelisted input `"2+2"`. -/
theorem c9_whitelist_blocks_keywords_witness :
    (∀ kw ∈ disallowed_keywords, containsStr (lowerStr "2+2") kw = false) ∧
    (disallowed_keywords.any (fun kw => containsStr (lowerStr "2+2") kw)) = false :=
  c9_whitelist_blocks_keywords "2+2" (by decide)

/-- C2: `simple_calculator` is a total string-to-string function (no
exception escapes: every input yields one of the calculator's strings);
a string with a character outside the whitelist is rejected with the
invalid-character error string without being evaluated; a string containing
a disallowed keyword is rejected with an error string without being
evaluated; `"2+2"` yields a result string containing `4`; `"3/0"` and
parse failures yield the could-not-evaluate error string. -/
theorem c2_calculator_error_handling :
    (∀ s : String, s.data.all (fun c => allowed_chars.contains c) = false →
      simple_calculator s =
        "Error: Expression contains invalid characters for simple_calculator.") ∧
    (∀ s : String, (disallowed_keywords.any (fun kw => containsStr (lowerStr s) kw)) = true →
      simple_calculator s =
        "Error: Expression contains invalid characters for simple_calculator." ∨
      simple_calculator s =
        "Error: Expression contains disallowed keywords for safety.") ∧
    containsStr (simple_calculator "2+2") "4" = true ∧
    simple_calculator "2+2" = "The result of \x272+2\x27 is 4." ∧
    simple_calculator "3/0" =
      "Error: Could not evaluate the expression \x273/0\x27. Ensure it\x27s a valid simple arithmetic expression." ∧
    simple_calculator "import os" =
      "Error: Expression contains invalid characters for simple_calculator." ∧
    (∀ s : String,
      simple_calculator s =
        "Error: Expression contains invalid characters for simple_calculator." ∨
      simple_calculator s =
        "Error: Expression contains disallowed keywords for safety." ∨
      (pyEvalArith s = none ∧ simple_calculator s =
        s!"Error: Could not evaluate the expression \x27{s}\x27. Ensure it\x27s a valid simple arithmetic expression.") ∨
      (∃ v, pyEvalArith s = some v ∧ simple_calculator s =
        s!"The result of \x27{s}\x27 is {pyNumRepr v}.")) := by
  refine ⟨?_, ?_, by decide, by decide, by decide, by decide, ?_⟩
  · intro s h
    exact simple_calculator_of_char_fail h
  · intro s hkw
    by_cases hc : s.data.all (fun c => allowed_chars.contains c) = true
    · right
      exact simple_calculator_of_kw hc hkw
    · left
      simp only [Bool.not_eq_true] at hc
      exact simple_calculator_of_char_fail hc
  · intro s
    by_cases hc : s.data.all (fun c => allowed_chars.contains c) = true
    · by_cases hkw : (disallowed_keywords.any (fun kw => containsStr (lowerStr s) kw)) = true
      · right; left
        exact simple_calculator_of_kw hc hkw
      · simp only [Bool.not_eq_true] at hkw
        cases hev : pyEvalArith s with
        | none =>
          right; right; left
          refine ⟨rfl, ?_⟩
          rw [simple_calculator_of_guards hc hkw, hev]
        | some v =>
          right; right; right
          refine ⟨v, rfl, ?_⟩
          rw [simple_calculator_of_guards hc hkw, hev]
    · left
      simp only [Bool.not_eq_true] at hc
      exact simple_calculator_of_char_fail hc

/-- Witness for C2: the universally quantified conjuncts applied at the
concrete inputs `"a+b"` (invalid character), `"import os"` (contains a
disallowed keyword) and `"2+2"` (successful evaluation). -/
theorem c2_calculator_error_handling_witness :
    (simple_calculator "a+b" =
      "Error: Expression contains invalid characters for simple_calculator.") ∧
    (simple_calculator "import os" =
        "Error: Expression contains invalid characters for simple_calculator." ∨
     simple_calculator "import os" =
        "Error: Expression contains disallowed keywords for safety.") ∧
    (simple_calculator "2+2" =
        "Error: Expression contains invalid characters for simple_calculator." ∨
      simple_calculator "2+2" =
        "Error: Expression contains disallowed keywords for safety." ∨
      (pyEvalArith "2+2" = none ∧ simple_calculator "2+2" =
        s!"Error: Could not evaluate the expression \x272+2\x27. Ensure it\x27s a valid simple arithmetic expression.") ∨
      (∃ v, pyEvalArith "2+2" = some v ∧ simple_calculator "2+2" =
        s!"The result of \x272+2\x27 is {pyNumRepr v}.")) :=
  ⟨c2_calculator_error_handling.1 "a+b" (by decide),
   c2_calculator_error_handling.2.1 "import os" (by decide),
   c2_calculator_error_handling.2.2.2.2.2.2 "2+2"⟩

/-! ## Lemmas about metadata dicts and the chunker -/

theorem metaGet_map_set (md : List (String × MetaVal)) (k : String) (v : MetaVal)
    (h : (md.find? (fun p => p.1 == k)).isSome = true) :
    metaGet (md.map (fun p => if p.1 == k then (k, v) else p)) k = some v := by
  induction md with
  | nil => simp [List.find?] at h
  | cons p t ih =>
    by_cases hp : (p.1 == k) = true
    · simp [metaGet, List.find?, hp]
    · have hp' : (p.1 == k) = false := by simpa using hp
      have h' : (t.find? (fun q => q.1 == k)).isSome = true := by
        simp only [List.find?_cons, hp'] at h
        exact h
      have := ih h'
      simp only [metaGet] at this ⊢
      simp only [List.map_cons, if_neg hp]
      simp only [List.find?_cons, hp']
      exact this

theorem metaGet_metaSet (md : List (String × MetaVal)) (k : String) (v : MetaVal) :
    metaGet (metaSet md k v) k = some v := by
  unfold metaSet
  by_cases h : (md.find? (fun p => p.1 == k)).isSome = true
  · rw [if_pos h]
    exact metaGet_map_set md k v h
  · rw [if_neg h]
    have hnone : md.find? (fun p => p.1 == k) = none := by
      cases hh : md.find? (fun p => p.1 == k)
      · rfl
      · rw [hh] at h; simp at h
    simp [metaGet, List.find?_append, hnone, List.find?]

theorem backfill_has_source (d : Document) :
    (metaGet (backfillSource d).metadata "source").isSome = true := by
  unfold backfillSource
  cases h : metaGet d.metadata "source" with
  | some w => simp [h]
  | none =>
    cases h2 : metaGet d.metadata "file_path" with
    | some w => simp [h, h2, metaGet_metaSet]
    | none => simp [h, h2, metaGet_metaSet]

/-- C6 (amended): with a metadata-inheriting splitter, every chunk carries a
`source` metadata field; a parent lacking `source` is backfilled with the
value of its `file_path` key when that key is present, and with
`"Unknown_Source_File"` only when `file_path` is absent too. -/
theorem c6_source_backfill_amended :
    (∀ (splitter : List Document → List Document) (docs : List Document),
      SplitterInheritsMetadata splitter →
      ∀ c ∈ chunk_documents splitter docs, (metaGet c.metadata "source").isSome = true) ∧
    (∀ d : Document, metaGet d.metadata "source" = none →
      metaGet d.metadata "file_path" = none →
      metaGet (backfillSource d).metadata "source" = some (MetaVal.str "Unknown_Source_File")) ∧
    (∀ d : Document, metaGet d.metadata "source" = none →
      ∀ v, metaGet d.metadata "file_path" = some v →
      metaGet (backfillSource d).metadata "source" = some v) := by
  refine ⟨?_, ?_, ?_⟩
  · intro sp docs hinh c hc
    unfold chunk_documents at hc
    by_cases hd : docs.isEmpty = true
    · rw [if_pos hd] at hc
      cases hc
    · rw [if_neg hd] at hc
      obtain ⟨d, hd', hmeta⟩ := hinh _ c hc
      obtain ⟨d0, _, rfl⟩ := List.mem_map.mp hd'
      rw [hmeta]
      exact backfill_has_source d0
  · intro d h1 h2
    simp only [backfillSource, h1, h2]
    exact metaGet_metaSet d.metadata "source" (MetaVal.str "Unknown_Source_File")
  · intro d h1 v h2
    simp only [backfillSource, h1, h2]
    exact metaGet_metaSet d.metadata "source" v

/-- Witness for C6 (amended): the identity splitter inherits metadata; a
document with `source` keeps it through chunking; documents without
`source` are backfilled from `file_path` or with the fallback constant. -/
theorem c6_source_backfill_amended_witness :
    (metaGet (Document.mk "hello" [("source", MetaVal.str "a.txt")]).metadata "source").isSome = true ∧
    metaGet (backfillSource (Document.mk "x" [])).metadata "source" =
      some (MetaVal.str "Unknown_Source_File") ∧
    metaGet (backfillSource (Document.mk "x" [("file_path", MetaVal.str "docs/a.pdf")])).metadata
      "source" = some (MetaVal.str "docs/a.pdf") :=
  ⟨c6_source_backfill_amended.1 (fun l => l) [Document.mk "hello" [("source", MetaVal.str "a.txt")]]
      (fun _ c hc => ⟨c, hc, rfl⟩) _ (by decide),
   c6_source_backfill_amended.2.1 (Document.mk "x" []) (by decide) (by decide),
   c6_source_backfill_amended.2.2 (Document.mk "x" [("file_path", MetaVal.str "docs/a.pdf")])
      (by decide) (MetaVal.str "docs/a.pdf") (by decide)⟩

/-- C6 counterexample: a parent whose metadata lacks `source` but carries
`file_path` is backfilled with the `file_path` value `"docs/policy.pdf"`,
not with `"Unknown_Source_File"` as the claim states. -/
theorem c6_source_backfill_counterexample :
    metaGet (Document.mk "hello world" [("file_path", MetaVal.str "docs/policy.pdf")]).metadata
      "source" = none ∧
    chunk_documents (fun l => l)
        [Document.mk "hello world" [("file_path", MetaVal.str "docs/policy.pdf")]] =
      [Document.mk "hello world"
        [("file_path", MetaVal.str "docs/policy.pdf"), ("source", MetaVal.str "docs/policy.pdf")]] ∧
    metaGet (backfillSource
        (Document.mk "hello world" [("file_path", MetaVal.str "docs/policy.pdf")])).metadata
      "source" ≠ some (MetaVal.str "Unknown_Source_File") := by
  decide

/-- C7: the context formatter returns exactly the sentinel string on empty
input (and the sentinel is not the empty string); on non-empty input it is
the newline-join, in the given order, of one part per chunk, where each
part is the `Source N (File: ..., Page: ...)` header followed by a snippet
of at most 1500 characters that is a prefix of the chunk's content, and
the `---` separator. -/
theorem c7_format_docs_with_sources :
    format_docs_with_sources [] = "No context documents found." ∧
    "No context documents found." ≠ "" ∧
    (∀ docs : List Document, docs ≠ [] →
      format_docs_with_sources docs =
        String.intercalate "\n" ((docs.enum).map (fun p => formatDocPart p.1 p.2))) ∧
    (∀ (i : Nat) (doc : Document),
      let n := i + 1
      let src := metaShow (metaGet doc.metadata "source")
      let pg := metaShow (metaGet doc.metadata "page")
      ∃ snippet : String,
        formatDocPart i doc = s!"Source {n} (File: {src}, Page: {pg}):\n{snippet}\n---\n" ∧
        snippet.length ≤ 1500 ∧
        snippet.data <+: doc.page_content.data) := by
  refine ⟨rfl, by decide, ?_, ?_⟩
  · intro docs h
    unfold format_docs_with_sources
    rw [if_neg]
    simp [h]
  · intro i doc
    refine ⟨takeStr doc.page_content 1500, rfl, ?_, ?_⟩
    · have h1 : (takeStr doc.page_content 1500).length =
          (doc.page_content.data.take 1500).length := rfl
      rw [h1, List.length_take]
      exact min_le_left _ _
    · exact ⟨doc.page_content.data.drop 1500, List.take_append_drop _ _⟩

/-- Witness for C7 at a concrete one-chunk list. -/
theorem c7_format_docs_with_sources_witness :
    format_docs_with_sources [Document.mk "content here" [("source", MetaVal.str "a.txt")]] =
      String.intercalate "\n"
        (([Document.mk "content here" [("source", MetaVal.str "a.txt")]].enum).map
          (fun p => formatDocPart p.1 p.2)) ∧
    (∃ snippet : String,
      formatDocPart 0 (Document.mk "content here" [("source", MetaVal.str "a.txt")]) =
        s!"Source 1 (File: a.txt, Page: N/A):\n{snippet}\n---\n" ∧
      snippet.length ≤ 1500 ∧
      snippet.data <+: (Document.mk "content here" [("source", MetaVal.str "a.txt")]).page_content.data) :=
  ⟨c7_format_docs_with_sources.2.2.1 _ (by decide),
   c7_format_docs_with_sources.2.2.2 0 (Document.mk "content here" [("source", MetaVal.str "a.txt")])⟩

/-! ## Loader theorems -/

theorem fileDocs_eq_nil_of_parseFails (folder_path : String) (f : FsFile)
    (h : parseFails f = true) : fileDocs folder_path f = [] := by
  unfold parseFails at h
  unfold fileDocs
  by_cases h1 : (extLower f.name == ".pdf") = true
  · simp only [if_pos h1] at h ⊢
    cases hp : f.pdfParse with
    | none => rfl
    | some pages => rw [hp] at h; simp at h
  · simp only [if_neg h1] at h ⊢
    by_cases h2 : (extLower f.name == ".txt" || extLower f.name == ".md") = true
    · simp only [if_pos h2] at h ⊢
      cases ht : f.textRead with
      | none => rfl
      | some c => rw [ht] at h; simp at h
    · simp only [if_neg h2] at h
      cases h

/-- C8: a supported file whose parse fails contributes no TextUnits and
never aborts the batch — the loader's result on a folder containing the
failing file is exactly the concatenation of its results on the files
before and after it. -/
theorem c8_loader_skips_failing_file (folder_path : String) (l r : List FsFile) (bad : FsFile)
    (hsup : supportedName bad.name = true) (hfail : parseFails bad = true) :
    fileDocs folder_path bad = [] ∧
    load_supported_documents folder_path (some (l ++ bad :: r)) =
      load_supported_documents folder_path (some l) ++
        load_supported_documents folder_path (some r) := by
  refine ⟨fileDocs_eq_nil_of_parseFails folder_path bad hfail, ?_⟩
  simp only [load_supported_documents]
  have hfc : List.filter (fun f => supportedName f.name) (bad :: r) =
      bad :: List.filter (fun f => supportedName f.name) r := by
    simp [List.filter_cons, hsup]
  rw [List.filter_append, hfc, List.flatMap_append, List.flatMap_cons,
    fileDocs_eq_nil_of_parseFails folder_path bad hfail]
  simp

/-- Witness for C8: a corrupt PDF between two readable text files is
skipped and the two text files' documents are still produced. -/
theorem c8_loader_skips_failing_file_witness :
    fileDocs "data" (FsFile.mk "corrupt.pdf" none none) = [] ∧
    load_supported_documents "data"
        (some [FsFile.mk "a.txt" none (some "hello"),
               FsFile.mk "corrupt.pdf" none none,
               FsFile.mk "b.md" none (some "notes")]) =
      load_supported_documents "data" (some [FsFile.mk "a.txt" none (some "hello")]) ++
        load_supported_documents "data" (some [FsFile.mk "b.md" none (some "notes")]) :=
  c8_loader_skips_failing_file "data" [FsFile.mk "a.txt" none (some "hello")]
    [FsFile.mk "b.md" none (some "notes")] (FsFile.mk "corrupt.pdf" none none)
    (by decide) (by decide)

/-- C10: a folder path that does not exist or is not a directory yields the
empty document list, the same observable result as a directory none of
whose files has a supported extension. -/
theorem c10_loader_missing_folder (folder_path : String) :
    load_supported_documents folder_path none = [] ∧
    (∀ fs : List FsFile, (∀ f ∈ fs, supportedName f.name = false) →
      load_supported_documents folder_path (some fs) = [] ∧
      load_supported_documents folder_path (some fs) =
        load_supported_documents folder_path none) := by
  refine ⟨rfl, ?_⟩
  intro fs h
  have hfil : fs.filter (fun f => supportedName f.name) = [] := by
    rw [List.filter_eq_nil_iff]
    intro f hf
    rw [h f hf]
    simp
  constructor
  · simp only [load_supported_documents]
    rw [hfil]
    rfl
  · simp only [load_supported_documents]
    rw [hfil]
    rfl

/-- Witness for C10 at a folder holding only an unsupported file. -/
theorem c10_loader_missing_folder_witness :
    load_supported_documents "data" none = [] ∧
    (load_supported_documents "data" (some [FsFile.mk "img.png" none (some "x")]) = [] ∧
     load_supported_documents "data" (some [FsFile.mk "img.png" none (some "x")]) =
       load_supported_documents "data" none) :=
  ⟨(c10_loader_missing_folder "data").1,
   (c10_loader_missing_folder "data").2 [FsFile.mk "img.png" none (some "x")] (by decide)⟩

/-! ## Ingestion theorems -/

theorem ingestMain_cases (env : IngestEnv) :
    ingestMain env = ([], .noData) ∨
    ingestMain env = ([Stage.load], .noDocs) ∨
    ingestMain env = ([Stage.load, Stage.chunkStage], .noChunks) ∨
    ingestMain env = ([Stage.load, Stage.chunkStage, Stage.embed], .embedFail) ∨
    ingestMain env = ([Stage.load, Stage.chunkStage, Stage.embed, Stage.store], .storeFail) ∨
    ingestMain env = ([Stage.load, Stage.chunkStage, Stage.embed, Stage.store], .success) := by
  rcases env with ⟨listing, sp, e, st⟩
  cases listing with
  | none => exact Or.inl rfl
  | some fs =>
    simp only [ingestMain]
    by_cases h1 : fs.isEmpty = true
    · rw [if_pos h1]; exact Or.inl rfl
    · rw [if_neg h1]
      by_cases h2 : (load_supported_documents "data" (some fs)).isEmpty = true
      · rw [if_pos h2]; exact Or.inr (Or.inl rfl)
      · rw [if_neg h2]
        by_cases h3 : (chunk_documents sp (load_supported_documents "data" (some fs))).isEmpty = true
        · rw [if_pos h3]; exact Or.inr (Or.inr (Or.inl rfl))
        · rw [if_neg h3]
          cases e with
          | false => exact Or.inr (Or.inr (Or.inr (Or.inl rfl)))
          | true =>
            cases st with
            | false => exact Or.inr (Or.inr (Or.inr (Or.inr (Or.inl rfl))))
            | true => exact Or.inr (Or.inr (Or.inr (Or.inr (Or.inr rfl))))

/-- C5: `ingest.main` enters its stages in the fixed order
load → chunk → embedding-init → vector-store write (the executed-stage
trace is always a prefix of that order), and a failure at any stage stops
the run with exactly the stages up to the failing one executed — in
particular no vector-store stage runs when loading, chunking or embedding
initialization fails. -/
theorem c5_ingest_stage_order (env : IngestEnv) :
    (ingestMain env).1 <+: [Stage.load, Stage.chunkStage, Stage.embed, Stage.store] ∧
    ((ingestMain env).2 ≠ IngestOutcome.storeFail → (ingestMain env).2 ≠ IngestOutcome.success →
      Stage.store ∉ (ingestMain env).1) ∧
    ((ingestMain env).2 = IngestOutcome.noDocs → (ingestMain env).1 = [Stage.load]) ∧
    ((ingestMain env).2 = IngestOutcome.noChunks →
      (ingestMain env).1 = [Stage.load, Stage.chunkStage]) ∧
    ((ingestMain env).2 = IngestOutcome.embedFail →
      (ingestMain env).1 = [Stage.load, Stage.chunkStage, Stage.embed]) ∧
    ((ingestMain env).2 = IngestOutcome.success →
      (ingestMain env).1 = [Stage.load, Stage.chunkStage, Stage.embed, Stage.store]) := by
  rcases ingestMain_cases env with h | h | h | h | h | h <;> rw [h] <;> exact by decide

/-- Witness for C5: three concrete environments — embedding-init failure
(no store stage entered), a fully successful run, and an empty data folder
(no stage entered, so no store stage). -/
theorem c5_ingest_stage_order_witness :
    Stage.store ∉
      (ingestMain ⟨some [FsFile.mk "a.txt" none (some "hi")], (fun l => l), false, true⟩).1 ∧
    (ingestMain ⟨some [FsFile.mk "a.txt" none (some "hi")], (fun l => l), false, true⟩).1 =
      [Stage.load, Stage.chunkStage, Stage.embed] ∧
    (ingestMain ⟨some [FsFile.mk "a.txt" none (some "hi")], (fun l => l), true, true⟩).1 =
      [Stage.load, Stage.chunkStage, Stage.embed, Stage.store] ∧
    Stage.store ∉ (ingestMain ⟨none, (fun l => l), true, true⟩).1 :=
  ⟨(c5_ingest_stage_order _).2.1 (by decide) (by decide),
   (c5_ingest_stage_order _).2.2.2.2.1 (by decide),
   (c5_ingest_stage_order _).2.2.2.2.2 (by decide),
   (c5_ingest_stage_order ⟨none, (fun l => l), true, true⟩).2.1 (by decide) (by decide)⟩

/-! ## Agent-loop theorems -/

/-- C1 counterexample: at the spec's own example content
`"The answer is 42. TERMINATE"` the loop terminates, but the final
displayed answer for that turn is the content unchanged — the sentinel is
not stripped, so it differs from `"The answer is 42."`. -/
theorem c1_sentinel_not_stripped_counterexample :
    isTerminationMsgB (some "The answer is 42. TERMINATE") = true ∧
    runAgentLoop (fun _ => "") "What is the answer?"
        [Msg.mk "assistant" "KnowledgeExplorerAssistant"
          (some "The answer is 42. TERMINATE") none] 5 =
      [Msg.mk "user" "UserProxy" (some "What is the answer?") none,
       Msg.mk "assistant" "KnowledgeExplorerAssistant"
         (some "The answer is 42. TERMINATE") none] ∧
    (chatHandler "What is the answer?"
        [Msg.mk "user" "UserProxy" (some "What is the answer?") none,
         Msg.mk "assistant" "KnowledgeExplorerAssistant"
           (some "The answer is 42. TERMINATE") none]).getLast? =
      some (DispMsg.mk "assistant" "KnowledgeExplorerAssistant"
        (some "The answer is 42. TERMINATE") none) ∧
    some "The answer is 42. TERMINATE" ≠ some "The answer is 42." := by
  decide

/-- C1 (amended): for every model turn whose content is a string whose
right-stripped text ends with `TERMINATE`, the termination predicate fires
and the loop stops at that turn without consuming further replies — but
the final answer displayed for the turn is the content unchanged (the
sentinel and trailing whitespace are not stripped). -/
theorem c1_terminate_sentinel_amended (toolExec : String → String) (prompt c nm : String)
    (rest : List Msg) (h : endsWithStr (rstripStr c) "TERMINATE" = true) :
    isTerminationMsgB (some c) = true ∧
    runAgentLoop toolExec prompt (Msg.mk "assistant" nm (some c) none :: rest) 5 =
      [Msg.mk "user" "UserProxy" (some prompt) none,
       Msg.mk "assistant" nm (some c) none] ∧
    (chatHandler prompt
        [Msg.mk "user" "UserProxy" (some prompt) none,
         Msg.mk "assistant" nm (some c) none]).getLast? =
      some (DispMsg.mk "assistant" nm (some c) none) := by
  have hterm : isTerminationMsgB (some c) = true := h
  refine ⟨hterm, ?_, ?_⟩
  · simp [runAgentLoop, agentLoopGo, hterm]
  · have hc : (c == "") = false := by
      cases hcc : c == ""
      · rfl
      · exfalso
        have hce : c = "" := by simpa using hcc
        subst hce
        exact absurd h (by decide)
    simp [chatHandler, skipMsg, isFallbackScanHit, toDisplay, roleToDisplay, hc]

/-- Witness for C1 (amended) at a concrete terminating reply. -/
theorem c1_terminate_sentinel_amended_witness :
    isTerminationMsgB (some "Done. TERMINATE") = true ∧
    runAgentLoop (fun _ => "out") "hi"
        (Msg.mk "assistant" "KnowledgeExplorerAssistant" (some "Done. TERMINATE") none ::
          [Msg.mk "assistant" "KnowledgeExplorerAssistant" (some "unused") none]) 5 =
      [Msg.mk "user" "UserProxy" (some "hi") none,
       Msg.mk "assistant" "KnowledgeExplorerAssistant" (some "Done. TERMINATE") none] ∧
    (chatHandler "hi"
        [Msg.mk "user" "UserProxy" (some "hi") none,
         Msg.mk "assistant" "KnowledgeExplorerAssistant" (some "Done. TERMINATE") none]).getLast? =
      some (DispMsg.mk "assistant" "KnowledgeExplorerAssistant" (some "Done. TERMINATE") none) :=
  c1_terminate_sentinel_amended (fun _ => "out") "hi" "Done. TERMINATE"
    "KnowledgeExplorerAssistant"
    [Msg.mk "assistant" "KnowledgeExplorerAssistant" (some "unused") none] (by decide)

theorem autoReply_role_ne (toolExec : String → String) (m : Msg) :
    ((autoReply toolExec m).role == "assistant") = false := by
  rcases m with ⟨role, nm, content, tc⟩
  cases tc <;> rfl

theorem agentLoopGo_eq_append (toolExec : String → String) :
    ∀ (replies : List Msg) (b : Nat) (conv : List Msg),
      agentLoopGo toolExec replies b conv = conv ++ loopTrace toolExec replies b := by
  intro replies
  induction replies with
  | nil => intro b conv; simp [agentLoopGo, loopTrace]
  | cons r rest ih =>
    intro b conv
    simp only [agentLoopGo, loopTrace]
    by_cases hterm : isTerminationMsgB r.content = true
    · rw [if_pos hterm, if_pos hterm]
    · rw [if_neg hterm, if_neg hterm]
      cases b with
      | zero => rfl
      | succ n =>
        show agentLoopGo toolExec rest n (conv ++ [r, autoReply toolExec r]) =
          conv ++ (r :: autoReply toolExec r :: loopTrace toolExec rest n)
        rw [ih n (conv ++ [r, autoReply toolExec r])]
        simp

theorem loopTrace_stats (toolExec : String → String) :
    ∀ (replies : List Msg) (b : Nat),
      (∀ r ∈ replies, isTerminationMsgB r.content = false) →
      (∀ r ∈ replies, r.role = "assistant") →
      b < replies.length →
      (loopTrace toolExec replies b).length = 2 * b + 1 ∧
      (loopTrace toolExec replies b).countP (fun m => m.role == "assistant") = b + 1 ∧
      (loopTrace toolExec replies b).countP (fun m => !(m.role == "assistant")) = b := by
  intro replies
  induction replies with
  | nil => intro b _ _ hlt; simp at hlt
  | cons r rest ih =>
    intro b hterm hroles hlt
    have htr : isTerminationMsgB r.content = false := hterm r (List.mem_cons_self _ _)
    have hrr : r.role = "assistant" := hroles r (List.mem_cons_self _ _)
    simp only [loopTrace]
    rw [if_neg (by simp [htr])]
    cases b with
    | zero =>
      refine ⟨rfl, ?_, ?_⟩ <;> simp [List.countP_cons, hrr]
    | succ n =>
      have hlt' : n < rest.length := by
        simpa using Nat.lt_of_succ_lt_succ hlt
      obtain ⟨hl, hca, hcn⟩ :=
        ih n (fun x hx => hterm x (List.mem_cons_of_mem _ hx))
          (fun x hx => hroles x (List.mem_cons_of_mem _ hx)) hlt'
      have har := autoReply_role_ne toolExec r
      refine ⟨?_, ?_, ?_⟩
      · simp only [List.length_cons, hl]; omega
      · simp only [List.countP_cons, hca, hrr, har]
        simp
      · simp only [List.countP_cons, hcn, hrr, har]
        simp

theorem skip_not_hit (prompt : String) (m : Msg) (h : skipMsg prompt m = true) :
    isFallbackScanHit m = false := by
  rcases m with ⟨role, nm, content, tc⟩
  simp only [skipMsg, Bool.and_eq_true, beq_iff_eq] at h
  simp [isFallbackScanHit, h.1]

theorem roleToDisplay_eq_self {r : String} (h : r ≠ "model") : roleToDisplay r = r := by
  unfold roleToDisplay
  rw [if_neg (by simpa using h)]

theorem dispHit_toDisplay (m : Msg) (h : m.role ≠ "model") :
    dispFallbackScanHit (toDisplay m) = isFallbackScanHit m := by
  rcases m with ⟨role, nm, content, tc⟩
  simp only [toDisplay, dispFallbackScanHit, isFallbackScanHit]
  rw [roleToDisplay_eq_self h]

theorem cand_imp_hit (m : Msg) (h : m.role ≠ "model")
    (hc : isFinalAnswerCandidate m = true) : isFallbackScanHit m = true := by
  rcases m with ⟨role, nm, content, tc⟩
  simp only [isFinalAnswerCandidate, Bool.and_eq_true] at hc
  obtain ⟨⟨h1, h2⟩, h3⟩ := hc
  rw [roleToDisplay_eq_self h] at h1
  simp only [isFallbackScanHit, Bool.and_eq_true]
  refine ⟨⟨h1, ?_⟩, h3⟩
  cases content with
  | none => simp at h2
  | some c =>
    simp only [Bool.and_eq_true] at h2
    exact h2.1

theorem find?_map_filter_reverse {α β : Type} (f : α → β) (pf : α → Bool) (q : β → Bool)
    (p : α → Bool) :
    ∀ l : List α,
      (∀ a ∈ l, pf a = true → q (f a) = p a) →
      (∀ a ∈ l, pf a = false → p a = false) →
      ((l.filter pf).map f).reverse.find? q = (l.reverse.find? p).map f := by
  intro l
  induction l with
  | nil => intro _ _; rfl
  | cons a t ih =>
    intro hq hskip
    have iht := ih (fun x hx => hq x (List.mem_cons_of_mem _ hx))
      (fun x hx => hskip x (List.mem_cons_of_mem _ hx))
    by_cases ha : pf a = true
    · have hfil : (a :: t).filter pf = a :: t.filter pf := by simp [List.filter_cons, ha]
      rw [hfil, List.map_cons, List.reverse_cons, List.reverse_cons, List.find?_append,
        List.find?_append, iht]
      have hqa : q (f a) = p a := hq a (List.mem_cons_self _ _) ha
      cases hfind : t.reverse.find? p with
      | some x => simp [Option.or]
      | none =>
        cases hp : p a <;>
          simp [Option.or, List.find?_cons, hqa, hp]
    · have ha' : pf a = false := by simpa using ha
      have hfil : (a :: t).filter pf = t.filter pf := by simp [List.filter_cons, ha']
      have hpa : p a = false := hskip a (List.mem_cons_self _ _) ha'
      rw [hfil, List.reverse_cons, List.find?_append, iht]
      cases hfind : t.reverse.find? p with
      | some x => simp [Option.or]
      | none => simp [Option.or, List.find?_cons, hpa]

/-- C3: when the model never emits the termination sentinel, the loop ends
after exactly the configured budget of 5 auto-replies (the conversation is
the prompt, 6 model turns and 5 interleaved auto-replies); and the chat
handler's returned result is the most recent non-empty, non-tool-call
assistant text of the turn's conversation — its display list is exactly
the conversation's display records, whose most-recent assistant-text
record is that message's — and when no such text exists the handler ends
the display list with the fixed no-textual-response fallback record. -/
theorem c3_round_budget_and_fallback :
    (∀ (toolExec : String → String) (prompt : String) (replies : List Msg),
      (∀ r ∈ replies, isTerminationMsgB r.content = false) →
      (∀ r ∈ replies, r.role = "assistant") →
      5 < replies.length →
      (runAgentLoop toolExec prompt replies 5).length = 12 ∧
      (runAgentLoop toolExec prompt replies 5).countP (fun m => m.role == "assistant") = 6 ∧
      ((runAgentLoop toolExec prompt replies 5).drop 1).countP
        (fun m => !(m.role == "assistant")) = 5) ∧
    (∀ (prompt : String) (conv : List Msg), (∀ m ∈ conv, m.role ≠ "model") →
      match conv.reverse.find? isFallbackScanHit with
      | some m =>
        chatHandler prompt conv = (conv.filter (fun x => !skipMsg prompt x)).map toDisplay ∧
        ((conv.filter (fun x => !skipMsg prompt x)).map toDisplay).reverse.find?
          dispFallbackScanHit = some (toDisplay m)
      | none => (chatHandler prompt conv).getLast? = some fallbackDisp) := by
  constructor
  · intro toolExec prompt replies hterm hroles hlen
    have hrun : runAgentLoop toolExec prompt replies 5 =
        Msg.mk "user" "UserProxy" (some prompt) none :: loopTrace toolExec replies 5 := by
      unfold runAgentLoop
      rw [agentLoopGo_eq_append]
      rfl
    obtain ⟨hl, hca, hcn⟩ := loopTrace_stats toolExec replies 5 hterm hroles hlen
    rw [hrun]
    refine ⟨?_, ?_, ?_⟩
    · simp [hl]
    · simp [List.countP_cons, hca]
    · show (loopTrace toolExec replies 5).countP (fun m => !(m.role == "assistant")) = 5
      exact hcn
  · intro prompt conv hroles
    have hfd := find?_map_filter_reverse toDisplay (fun x => !skipMsg prompt x)
      dispFallbackScanHit isFallbackScanHit conv
      (fun a ha _ => dispHit_toDisplay a (hroles a ha))
      (fun a _ hpf => skip_not_hit prompt a (by simpa using hpf))
    cases hfind : conv.reverse.find? isFallbackScanHit with
    | some m =>
      have hmem : m ∈ conv := List.mem_reverse.mp (List.mem_of_find?_eq_some hfind)
      have hhit : isFallbackScanHit m = true := List.find?_some hfind
      have hany : conv.any isFallbackScanHit = true := List.any_eq_true.mpr ⟨m, hmem, hhit⟩
      constructor
      · simp only [chatHandler]
        rw [hany, Bool.or_true, if_pos rfl]
      · rw [hfd, hfind]
        rfl
    | none =>
      have hnone : ∀ x ∈ conv, isFallbackScanHit x = false := by
        intro x hx
        have := List.find?_eq_none.mp hfind x (List.mem_reverse.mpr hx)
        simpa using this
      have hany : conv.any isFallbackScanHit = false := by
        cases ha : conv.any isFallbackScanHit
        · rfl
        · obtain ⟨x, hx, hpx⟩ := List.any_eq_true.mp ha
          rw [hnone x hx] at hpx
          cases hpx
      have hcand : (conv.filter (fun x => !skipMsg prompt x)).any isFinalAnswerCandidate
          = false := by
        cases ha : (conv.filter (fun x => !skipMsg prompt x)).any isFinalAnswerCandidate
        · rfl
        · obtain ⟨x, hx, hpx⟩ := List.any_eq_true.mp ha
          have hxconv : x ∈ conv := (List.mem_filter.mp hx).1
          have := cand_imp_hit x (hroles x hxconv) hpx
          rw [hnone x hxconv] at this
          cases this
      simp only [chatHandler]
      rw [hcand, hany]
      rw [if_neg (by simp)]
      exact List.getLast?_concat _

/-- Witness for C3: six non-terminating assistant replies exhaust the
budget of 5 auto-replies, and a concrete two-message conversation with one
assistant text is displayed without the fallback record. -/
theorem c3_round_budget_and_fallback_witness :
    ((runAgentLoop (fun _ => "out") "q"
        [Msg.mk "assistant" "A" (some "a1") none, Msg.mk "assistant" "A" (some "a2") none,
         Msg.mk "assistant" "A" (some "a3") none, Msg.mk "assistant" "A" (some "a4") none,
         Msg.mk "assistant" "A" (some "a5") none, Msg.mk "assistant" "A" (some "a6") none] 5).length
      = 12 ∧
     (runAgentLoop (fun _ => "out") "q"
        [Msg.mk "assistant" "A" (some "a1") none, Msg.mk "assistant" "A" (some "a2") none,
         Msg.mk "assistant" "A" (some "a3") none, Msg.mk "assistant" "A" (some "a4") none,
         Msg.mk "assistant" "A" (some "a5") none, Msg.mk "assistant" "A" (some "a6") none] 5).countP
        (fun m => m.role == "assistant") = 6 ∧
     ((runAgentLoop (fun _ => "out") "q"
        [Msg.mk "assistant" "A" (some "a1") none, Msg.mk "assistant" "A" (some "a2") none,
         Msg.mk "assistant" "A" (some "a3") none, Msg.mk "assistant" "A" (some "a4") none,
         Msg.mk "assistant" "A" (some "a5") none, Msg.mk "assistant" "A" (some "a6") none] 5).drop
          1).countP (fun m => !(m.role == "assistant")) = 5) ∧
    (chatHandler "q"
        [Msg.mk "user" "UserProxy" (some "q") none,
         Msg.mk "assistant" "KnowledgeExplorerAssistant" (some "hello") none] =
      ([Msg.mk "user" "UserProxy" (some "q") none,
        Msg.mk "assistant" "KnowledgeExplorerAssistant" (some "hello") none].filter
          (fun x => !skipMsg "q" x)).map toDisplay ∧
     (([Msg.mk "user" "UserProxy" (some "q") none,
        Msg.mk "assistant" "KnowledgeExplorerAssistant" (some "hello") none].filter
          (fun x => !skipMsg "q" x)).map toDisplay).reverse.find? dispFallbackScanHit =
        some (toDisplay (Msg.mk "assistant" "KnowledgeExplorerAssistant" (some "hello") none))) :=
  ⟨c3_round_budget_and_fallback.1 (fun _ => "out") "q"
      [Msg.mk "assistant" "A" (some "a1") none, Msg.mk "assistant" "A" (some "a2") none,
       Msg.mk "assistant" "A" (some "a3") none, Msg.mk "assistant" "A" (some "a4") none,
       Msg.mk "assistant" "A" (some "a5") none, Msg.mk "assistant" "A" (some "a6") none]
      (by decide) (by decide) (by decide),
   c3_round_budget_and_fallback.2 "q"
      [Msg.mk "user" "UserProxy" (some "q") none,
       Msg.mk "assistant" "KnowledgeExplorerAssistant" (some "hello") none] (by decide)⟩

end Foxo
